import Mathlib

/-!
# Verification of the polymer component-loader HTML transformer

Shallow embedding of `src/src/index.js` (class `ProcessHtml`): the three-pass
document transformer (`links`, `domModule`, `scripts`, orchestrated by
`process`).  External capabilities (the parse5 tree, dom5 queries, Node's
`url.parse` / `path` functions, the html-minifier and the espree tokenizer)
are embedded as follows:

* the parsed tree (`parse5.parse(content, {locationInfo: true})` followed by
  `dom5.removeFakeRootElements`) is a value of type `Node`; every pass of the
  source re-parses the same `content` string, so all passes receive the same
  tree `doc`;
* `minify` is an opaque pure function `String → String`, taken as a parameter;
* `espree.tokenize` is a fallible function `String → Except String (List Token)`
  (it throws on a syntax error), taken as a parameter;
* `url.parse`'s `protocol`/`slashes` fields and the posix `path.dirname` /
  `path.join` are modelled concretely below.
-/

/-- A node of the parse5 tree (after `removeFakeRootElements`).  An element
carries its tag name, attribute list, `__location` data (`line`, `col`,
`startTag.line`, `endTag.line` — the fields the source reads) and children;
a text node carries its content and `__location` `line`/`col`. -/
inductive Node where
  | element (tag : String) (attrs : List (String × String))
      (line col startTagLine endTagLine : Int) (children : List Node)
  | text (content : String) (line col : Int)
deriving Repr

/-- Children of a node (`node.childNodes`; empty for a text node). -/
def Node.childrenOf : Node → List Node
  | .element _ _ _ _ _ _ ch => ch
  | .text _ _ _ => []

/-- `node.__location.line`. -/
def Node.locLine : Node → Int
  | .element _ _ l _ _ _ _ => l
  | .text _ l _ => l

/-- `node.__location.col`. -/
def Node.locCol : Node → Int
  | .element _ _ _ c _ _ _ => c
  | .text _ _ c => c

/-- `node.__location.startTag.line` (only ever read on elements). -/
def Node.startTagLineOf : Node → Int
  | .element _ _ _ _ stl _ _ => stl
  | .text _ _ _ => 0

/-- `node.__location.endTag.line` (only ever read on elements). -/
def Node.endTagLineOf : Node → Int
  | .element _ _ _ _ _ etl _ => etl
  | .text _ _ _ => 0

/-- `dom5.getAttribute(node, name)`: value of the first attribute named
`name`, or null (`none`). -/
def getAttribute (n : Node) (name : String) : Option String :=
  match n with
  | .element _ attrs _ _ _ _ _ => (attrs.find? (fun a => a.1 = name)).map (fun a => a.2)
  | .text _ _ _ => none

/-- `predicates.hasTagName(tag)` applied to a node. -/
def hasTagName (tag : String) (n : Node) : Bool :=
  match n with
  | .element t _ _ _ _ _ _ => t = tag
  | .text _ _ _ => false

/-- `domPred = predicates.AND(predicates.hasTagName('dom-module'))`. -/
def domPred (n : Node) : Bool := hasTagName "dom-module" n

/-- `linkPred = predicates.AND(predicates.hasTagName('link'))`. -/
def linkPred (n : Node) : Bool := hasTagName "link" n

/-- `scriptsPred = predicates.AND(predicates.hasTagName('script'))`. -/
def scriptsPred (n : Node) : Bool := hasTagName "script" n

mutual

/-- All nodes of the subtree rooted at `n`, in document (pre-)order. -/
def collectNode : Node → List Node
  | .element t a l c stl etl ch => .element t a l c stl etl ch :: collectArr ch
  | .text s l c => [.text s l c]

/-- All nodes of a forest, in document (pre-)order. -/
def collectArr : List Node → List Node
  | [] => []
  | n :: ns => collectNode n ++ collectArr ns

end

/-- `dom5.queryAll(doc, pred)`: all matching nodes in document order.  The
document is represented by its list of top-level children. -/
def queryAll (p : Node → Bool) (doc : List Node) : List Node :=
  (collectArr doc).filter p

mutual

/-- Remove every node matching `p` from the children (recursively) of `n`;
models the `queryAll` + `dom5.remove` loops of `domModule` (removing a node
detaches its whole subtree from the tree). -/
def removeFromNode (p : Node → Bool) : Node → Node
  | .element t a l c stl etl ch => .element t a l c stl etl (removeArr p ch)
  | .text s l c => .text s l c

/-- Remove every node matching `p` from a forest (recursively). -/
def removeArr (p : Node → Bool) : List Node → List Node
  | [] => []
  | n :: ns => if p n then removeArr p ns else removeFromNode p n :: removeArr p ns

end

/-- Serialization of an attribute list, ` name="value"` for each attribute. -/
def serializeAttrs (attrs : List (String × String)) : String :=
  attrs.foldl (fun s a => s ++ " " ++ a.1 ++ "=\"" ++ a.2 ++ "\"") ""

mutual

/-- Outer-HTML serialization of one node (models parse5's serializer; text
content is emitted raw, which is exact for the raw-text `script` elements the
claims inspect). -/
def serializeOuter : Node → String
  | .element t a _ _ _ _ ch => "<" ++ t ++ serializeAttrs a ++ ">" ++ serializeChildren ch ++ "</" ++ t ++ ">"
  | .text s _ _ => s

/-- Serialization of a list of sibling nodes. -/
def serializeChildren : List Node → String
  | [] => ""
  | n :: ns => serializeOuter n ++ serializeChildren ns

end

/-- `parse5.serialize(node)`: parse5 serializes the *children* of the given
node (its inner HTML). -/
def serialize (n : Node) : String := serializeChildren n.childrenOf

/-- Character admissible in the scheme of a URL, per Node's legacy
`url.parse` protocol pattern (letters, digits, `.`, `+`, `-`). -/
def isUrlProtocolChar (c : Char) : Bool :=
  c.isAlpha || c.isDigit || c = '.' || c = '+' || c = '-'

/-- Models Node `url.parse`: the scheme part including the trailing colon,
when the string starts with a scheme (`proto:`); `none` otherwise. -/
def urlProtocolPart (s : String) : Option String :=
  let pre := s.toList.takeWhile isUrlProtocolChar
  if pre ≠ [] ∧ (s.toList.drop pre.length).head? = some ':' then
    some (String.mk (pre ++ [':']))
  else
    none

/-- Models Node `url.parse(s).protocol` being truthy. -/
def urlHasProtocol (s : String) : Bool := (urlProtocolPart s).isSome

/-- Models Node `url.parse(s).slashes` being truthy: the scheme is followed
by the `//` authority marker.  (With `slashesDenoteHost` unset, a
protocol-less `//…` string is parsed as a plain path and `slashes` stays
unset, hence the `none => false` branch.) -/
def urlHasSlashes (s : String) : Bool :=
  match urlProtocolPart s with
  | some p => (s.toList.drop p.length).take 2 = ['/', '/']
  | none => false

/-- Models posix `path.dirname`. -/
def pathDirname (p : String) : String :=
  let cs := p.toList
  let trimmed := (cs.reverse.dropWhile (fun c => c = '/')).reverse
  let withoutLast := (trimmed.reverse.dropWhile (fun c => c ≠ '/')).reverse
  let dir := (withoutLast.reverse.dropWhile (fun c => c = '/')).reverse
  if dir = [] then (if cs.head? = some '/' then "/" else ".") else String.mk dir

/-- Segment normalization used by posix `path.normalize`: resolves `.` and
`..` segments (`acc` holds already-emitted segments, reversed). -/
def normalizeSegs (isAbs : Bool) : List String → List String → List String
  | acc, [] => acc.reverse
  | acc, s :: rest =>
    if s = "" ∨ s = "." then normalizeSegs isAbs acc rest
    else if s = ".." then
      match acc with
      | [] => if isAbs then normalizeSegs isAbs [] rest else normalizeSegs isAbs [".."] rest
      | a :: tl => if a = ".." then normalizeSegs isAbs (s :: a :: tl) rest else normalizeSegs isAbs tl rest
    else normalizeSegs isAbs (s :: acc) rest

/-- Models posix `path.normalize` (trailing-slash preservation omitted; no
claim exercises it). -/
def pathNormalize (p : String) : String :=
  let isAbs := p.toList.head? = some '/'
  let segs := normalizeSegs isAbs [] (p.splitOn "/")
  let body := String.intercalate "/" segs
  if isAbs then (if body = "" then "/" else "/" ++ body)
  else (if body = "" then "." else body)

/-- Models posix `path.join` on two segments. -/
def pathJoin (a b : String) : String :=
  let joined := if a = "" then b else if b = "" then a else a ++ "/" ++ b
  if joined = "" then "." else pathNormalize joined

/-- Models JS `s.indexOf(pat) >= 0`: `pat` occurs contiguously in `s`. -/
def strContains (s pat : String) : Bool :=
  s.toList.tails.any (fun t => pat.toList.isPrefixOf t)

/-- Models JS `str.replace(/'/g, "\\'")`: escape every single quote. -/
def escapeSingleQuotes (s : String) : String :=
  String.mk (s.toList.foldr (fun c acc => if c = '\'' then '\\' :: '\'' :: acc else c :: acc) [])

/-- The loader options read by the transformer (each defaults to `[]` via
`this.options.x || []` in the source). -/
structure Options where
  ignoreLinks : List String
  ignoreLinksFromPartialMatches : List String
  ignorePathReWrite : List String
deriving Repr

/-- An output fragment `{source, lineCount}` threaded between passes. -/
structure Fragment where
  source : String
  lineCount : Int
deriving Repr, DecidableEq

/-- The state of one `ProcessHtml` instance: the raw file `content`, the
tree `doc` the external parser yields for it (each pass re-parses `content`
and obtains this same tree), the loader `options` and `currentFilePath`. -/
structure ProcessHtml where
  content : String
  doc : List Node
  options : Options
  currentFilePath : String

/-- An espree token: `type`, `value` and optional start location
(`token.loc.start`). -/
structure TokenLoc where
  line : Int
  col : Int
deriving Repr, DecidableEq

structure Token where
  type : String
  value : String
  loc : Option TokenLoc
deriving Repr, DecidableEq

/-- One source-map mapping as passed to `sourceMapGenerator.addMapping`. -/
structure Mapping where
  origLine : Int
  origCol : Int
  genLine : Int
  genCol : Int
  source : String
  name : Option String
deriving Repr, DecidableEq

/-- The finalized source map (`toJSON` after `setSourceContent`): the
recorded mappings plus the embedded sources' content. -/
structure SourceMapJSON where
  mappings : List Mapping
  sourcesContent : List (String × String)
deriving Repr, DecidableEq

/-- The return value of `ProcessHtml.scripts`. -/
structure ScriptsResult where
  source : String
  sourceMap : Option SourceMapJSON
deriving Repr, DecidableEq

/-- The running state of the `scripts` pass: output text, generated-line
offset, and the lazily created source-map generator (its recorded mappings). -/
structure ScriptsState where
  source : String
  lineOffset : Int
  sourceMapGen : Option (List Mapping)
deriving Repr, DecidableEq

namespace ProcessHtml

/-- The body of the `links.forEach` loop of `ProcessHtml.links`, as a fold
step over the accumulated fragment. -/
def linkStep (opts : Options) (currentFilePath : String) (acc : Fragment) (linkNode : Node) : Fragment :=
  let href := (getAttribute linkNode "href").getD ""
  if href ≠ "" then
    let checkIgnorePaths := opts.ignorePathReWrite.filter (fun ignorePath => strContains href ignorePath)
    let path := if checkIgnorePaths.length = 0 then pathJoin (pathDirname currentFilePath) href else href
    let ignoredFromPartialMatches := opts.ignoreLinksFromPartialMatches.filter (fun pm => strContains href pm)
    if opts.ignoreLinks.contains href = false ∧ ignoredFromPartialMatches.length = 0 then
      { source := acc.source ++ "\nimport '" ++ path ++ "';\n", lineCount := acc.lineCount + 2 }
    else acc
  else acc

/-- `ProcessHtml.links()`: turn eligible `<link>` elements into import
statements. -/
def links (ph : ProcessHtml) : Fragment :=
  (queryAll linkPred ph.doc).foldl (linkStep ph.options ph.currentFilePath) ⟨"", 0⟩

/-- The removal condition of the `scripts.forEach` loop in
`ProcessHtml.domModule`: a script is removed unless its `src` is a non-empty
absolute URL (`src` truthy with `url.parse` protocol and slashes). -/
def shouldRemoveScript (n : Node) : Bool :=
  let src := (getAttribute n "src").getD ""
  if src ≠ "" then !(urlHasProtocol src && urlHasSlashes src) else true

/-- The tree of `domModule` after its two removal loops: every non-external
script and every link is removed. -/
def domModuleDoc (ph : ProcessHtml) : List Node :=
  removeArr linkPred (removeArr (fun n => scriptsPred n && shouldRemoveScript n) ph.doc)

end ProcessHtml

mutual

/-- `dom5.query` with parent tracking: the parent of the first node (in
document order) matching `p` in a forest whose own parent is `par`.  Yields
`some par` when found (`some none` means the match sits at document top level,
its parent being the `#document` node). -/
def queryParentArr (p : Node → Bool) (par : Option Node) : List Node → Option (Option Node)
  | [] => none
  | n :: ns =>
    if p n then some par
    else
      match queryParentNode p n with
      | some r => some r
      | none => queryParentArr p par ns

def queryParentNode (p : Node → Bool) : Node → Option (Option Node)
  | .element t a l c stl etl ch => queryParentArr p (some (.element t a l c stl etl ch)) ch
  | .text _ _ _ => none

end

namespace ProcessHtml

/-- Whether `query(doc, domPred)` finds a `dom-module`.  The source queries
before the removal loops; since in a parse5 tree a `dom-module` can occur
neither inside a `script` (raw-text content) nor inside a `link` (void
element), the first match is the same before and after removal, and we query
the removed tree. -/
def domModuleFound (ph : ProcessHtml) : Bool :=
  (queryParentArr domPred none (domModuleDoc ph)).isSome

/-- The children of `domModule ? domModule.parentNode : doc` in the removed
tree — the node list whose serialization (`parse5.serialize` serializes
children) is handed to `minify`. -/
def domModuleHtmlChildren (ph : ProcessHtml) : List Node :=
  let doc := domModuleDoc ph
  match queryParentArr domPred none doc with
  | some (some par) => par.childrenOf
  | some none => doc
  | none => doc

/-- `ProcessHtml.domModule()`: strip non-external scripts and all links,
serialize the component node's parent (or the whole document), minify, and
emit a single registration statement when the result is non-empty. -/
def domModule (minify : String → String) (ph : ProcessHtml) : Fragment :=
  let minimized := minify (serializeChildren (domModuleHtmlChildren ph))
  if minimized ≠ "" then
    if domModuleFound ph then
      { source := "\nconst RegisterHtmlTemplate = require('polymer-webpack-loader/register-html-template');\nRegisterHtmlTemplate.register('" ++ escapeSingleQuotes minimized ++ "');\n",
        lineCount := 3 }
    else
      { source := "\nconst RegisterHtmlTemplate = require('polymer-webpack-loader/register-html-template');\nRegisterHtmlTemplate.toBody('" ++ escapeSingleQuotes minimized ++ "');\n",
        lineCount := 3 }
  else { source := "", lineCount := 0 }

/-- Construction of one `addMapping` argument inside the `tokens.forEach`
loop of `ProcessHtml.scripts` (`none` models the early `return` on a token
without location info). -/
def tokenMapping (currentFilePath : String) (currentScriptLineOffset firstLineCharOffset lineOffset : Int)
    (token : Token) : Option Mapping :=
  match token.loc with
  | none => none
  | some l =>
    some { origLine := l.line + currentScriptLineOffset,
           origCol := l.col + (if l.line = 1 then firstLineCharOffset else 0),
           genLine := l.line + lineOffset,
           genCol := l.col,
           source := currentFilePath,
           name := if token.type = "Identifier" then some token.value else none }

/-- One iteration of the `tokens.forEach` loop of `ProcessHtml.scripts`:
record the token's mapping via `addMapping`, unless the token carries no
location info (the loop's early `return`). -/
def addMappingStep (currentFilePath : String)
    (currentScriptLineOffset firstLineCharOffset lineOffset : Int)
    (acc : List Mapping) (token : Token) : List Mapping :=
  match tokenMapping currentFilePath currentScriptLineOffset firstLineCharOffset lineOffset token with
  | none => acc
  | some m => acc ++ [m]

/-- The body of the `scripts.forEach` loop of `ProcessHtml.scripts`, as a
monadic fold step.  The `.error` on a childless inline script models the
TypeError thrown by `scriptNode.childNodes[0].__location` when the script
element has no child text node; a `tokenize` error models the espree throw. -/
def scriptStep (tokenize : String → Except String (List Token)) (currentFilePath : String)
    (st : ScriptsState) (scriptNode : Node) : Except String ScriptsState :=
  let src := (getAttribute scriptNode "src").getD ""
  if src ≠ "" then
    if !(urlHasProtocol src) || !(urlHasSlashes src) then
      .ok { st with
            source := st.source ++ "\nimport '" ++ pathJoin (pathDirname currentFilePath) src ++ "';\n",
            lineOffset := st.lineOffset + 2 }
    else .ok st
  else do
    let scriptContents := serialize scriptNode
    let gen := st.sourceMapGen.getD []
    let tokens ← tokenize scriptContents
    match scriptNode.childrenOf.head? with
    | none => .error "TypeError: cannot read __location of undefined"
    | some child =>
      let currentScriptLineOffset := child.locLine - 1
      let firstLineCharOffset := child.locCol
      let gen := tokens.foldl
        (addMappingStep currentFilePath currentScriptLineOffset firstLineCharOffset st.lineOffset) gen
      .ok { source := st.source ++ "\n" ++ scriptContents ++ "\n",
            lineOffset := st.lineOffset + 2 + (scriptNode.endTagLineOf - scriptNode.startTagLineOf),
            sourceMapGen := some gen }

/-- `ProcessHtml.scripts(initialSource, initialLineOffset)`: convert
local-src scripts to imports, re-emit inline scripts with token-level
source-map entries, skip external scripts. -/
def scripts (tokenize : String → Except String (List Token)) (ph : ProcessHtml)
    (initialSource : String) (initialLineOffset : Int) : Except String ScriptsResult := do
  let st ← (queryAll scriptsPred ph.doc).foldlM (scriptStep tokenize ph.currentFilePath)
      { source := initialSource, lineOffset := initialLineOffset, sourceMapGen := none }
  return { source := st.source,
           sourceMap := st.sourceMapGen.map (fun ms =>
             { mappings := ms, sourcesContent := [(ph.currentFilePath, ph.content)] }) }

/-- `ProcessHtml.process()`: links, then domModule, then scripts seeded with
the concatenated text and summed line counts. -/
def process (minify : String → String) (tokenize : String → Except String (List Token))
    (ph : ProcessHtml) : Except String ScriptsResult :=
  let links := ph.links
  let doms := ph.domModule minify
  ph.scripts tokenize (links.source ++ doms.source) (links.lineCount + doms.lineCount)

end ProcessHtml

/-! ## Basic string and list lemmas -/

theorem str_data_append (a b : String) : (a ++ b).data = a.data ++ b.data := rfl

theorem str_mk_append (l₁ l₂ : List Char) :
    String.mk l₁ ++ String.mk l₂ = String.mk (l₁ ++ l₂) := rfl

theorem str_append_assoc (a b c : String) : a ++ b ++ c = a ++ (b ++ c) := by
  apply String.ext
  simp [str_data_append]

theorem str_append_empty (s : String) : s ++ "" = s := by
  apply String.ext
  simp [str_data_append]

theorem str_empty_append (s : String) : "" ++ s = s := by
  apply String.ext
  simp [str_data_append]

theorem escape_foldr_tail (l t : List Char) :
    l.foldr (fun c acc => if c = '\'' then '\\' :: '\'' :: acc else c :: acc) t
      = l.foldr (fun c acc => if c = '\'' then '\\' :: '\'' :: acc else c :: acc) [] ++ t := by
  induction l with
  | nil => simp
  | cons c l ih => by_cases hc : c = '\'' <;> simp [hc, ih]

theorem escapeSingleQuotes_append (a b : String) :
    escapeSingleQuotes (a ++ b) = escapeSingleQuotes a ++ escapeSingleQuotes b := by
  apply String.ext
  show (a.data ++ b.data).foldr (fun c acc => if c = '\'' then '\\' :: '\'' :: acc else c :: acc) []
      = a.data.foldr (fun c acc => if c = '\'' then '\\' :: '\'' :: acc else c :: acc) []
        ++ b.data.foldr (fun c acc => if c = '\'' then '\\' :: '\'' :: acc else c :: acc) []
  rw [List.foldr_append, escape_foldr_tail]

theorem foldl_addMappingStep (fp : String) (cso flc off : Int)
    (tokens : List Token) (init : List Mapping) :
    tokens.foldl (ProcessHtml.addMappingStep fp cso flc off) init
      = init ++ tokens.filterMap (ProcessHtml.tokenMapping fp cso flc off) := by
  induction tokens generalizing init with
  | nil => simp
  | cons t ts ih =>
    cases h : ProcessHtml.tokenMapping fp cso flc off t <;>
      simp [ProcessHtml.addMappingStep, h, ih]

theorem except_bind_ok {α β : Type} {x : Except String α} {f : α → Except String β} {b : β}
    (h : (x >>= f) = .ok b) : ∃ a, x = .ok a ∧ f a = .ok b := by
  cases x with
  | error e => simp [Bind.bind, Except.bind] at h
  | ok a => exact ⟨a, rfl, by simpa [Bind.bind, Except.bind] using h⟩

/-! ## Characterization of the script-pass step -/

/-- External script (non-empty `src` parsing as protocol + slashes): the
step leaves the state unchanged. -/
theorem scriptStep_external (tokenize : String → Except String (List Token))
    (fp : String) (st : ScriptsState) (n : Node) (src : String)
    (h : (getAttribute n "src").getD "" = src) (hne : src ≠ "")
    (hp : urlHasProtocol src = true) (hs : urlHasSlashes src = true) :
    ProcessHtml.scriptStep tokenize fp st n = .ok st := by
  simp [ProcessHtml.scriptStep, h, hne, hp, hs]

/-- Local script (non-empty `src` not parsing as an absolute URL): the step
appends a framed import of the joined path and adds 2 to the line offset. -/
theorem scriptStep_local (tokenize : String → Except String (List Token))
    (fp : String) (st : ScriptsState) (n : Node) (src : String)
    (h : (getAttribute n "src").getD "" = src) (hne : src ≠ "")
    (habs : (urlHasProtocol src && urlHasSlashes src) = false) :
    ProcessHtml.scriptStep tokenize fp st n = .ok
      { st with source := st.source ++ "\nimport '" ++ pathJoin (pathDirname fp) src ++ "';\n",
                lineOffset := st.lineOffset + 2 } := by
  have hcond : (!urlHasProtocol src || !urlHasSlashes src) = true := by
    rw [← Bool.not_and]
    simp [habs]
  simp [ProcessHtml.scriptStep, h, hne, hcond]

/-- Inline script (no effective `src`): the step appends the serialized text
framed by newlines, advances the offset by `2 + (endTag.line - startTag.line)`,
and appends one mapping per located token. -/
theorem scriptStep_inline (tokenize : String → Except String (List Token))
    (fp : String) (st : ScriptsState) (n : Node) (tokens : List Token) (child : Node)
    (hsrc : (getAttribute n "src").getD "" = "")
    (htok : tokenize (serialize n) = .ok tokens)
    (hchild : n.childrenOf.head? = some child) :
    ProcessHtml.scriptStep tokenize fp st n = .ok
      { source := st.source ++ "\n" ++ serialize n ++ "\n",
        lineOffset := st.lineOffset + 2 + (n.endTagLineOf - n.startTagLineOf),
        sourceMapGen := some ((st.sourceMapGen.getD []) ++
          tokens.filterMap (ProcessHtml.tokenMapping fp (child.locLine - 1) child.locCol st.lineOffset)) } := by
  simp only [ProcessHtml.scriptStep, hsrc, ne_eq, not_true_eq_false, if_false, ite_false]
  simp only [Bind.bind, Except.bind, htok, hchild]
  rw [foldl_addMappingStep]

/-! ## Characterization of the link-pass step -/

/-- A link whose effective `href` is empty (absent attribute or empty value)
contributes nothing. -/
theorem linkStep_empty_href (opts : Options) (fp : String) (acc : Fragment) (n : Node)
    (h : (getAttribute n "href").getD "" = "") :
    ProcessHtml.linkStep opts fp acc n = acc := by
  simp [ProcessHtml.linkStep, h]

/-- A link whose `href` exactly equals an `ignoreLinks` entry contributes
nothing. -/
theorem linkStep_ignored_exact (opts : Options) (fp : String) (acc : Fragment) (n : Node)
    (href : String) (h : (getAttribute n "href").getD "" = href)
    (hmem : href ∈ opts.ignoreLinks) :
    ProcessHtml.linkStep opts fp acc n = acc := by
  have hc : opts.ignoreLinks.contains href = true := List.elem_iff.mpr hmem
  by_cases hne : href = "" <;> simp [ProcessHtml.linkStep, h, hne, hc, hmem]

/-- A link whose `href` contains an `ignoreLinksFromPartialMatches` entry as
a substring contributes nothing. -/
theorem linkStep_partialIgnored (opts : Options) (fp : String) (acc : Fragment) (n : Node)
    (href pm : String) (h : (getAttribute n "href").getD "" = href)
    (hpm : pm ∈ opts.ignoreLinksFromPartialMatches) (hsub : strContains href pm = true) :
    ProcessHtml.linkStep opts fp acc n = acc := by
  have hlen : (opts.ignoreLinksFromPartialMatches.filter (fun x => strContains href x)).length ≠ 0 := by
    have hx : pm ∈ opts.ignoreLinksFromPartialMatches.filter (fun x => strContains href x) :=
      List.mem_filter.mpr ⟨hpm, hsub⟩
    intro hc
    rw [List.length_eq_zero] at hc
    simp [hc] at hx
  by_cases hne : href = "" <;> simp [ProcessHtml.linkStep, h, hne, hlen]

/-- A non-suppressed link appends a framed import of the resolved path and
adds 2 to the line count; the path is the literal `href` when some
`ignorePathReWrite` entry occurs in it, the joined path otherwise. -/
theorem linkStep_emit (opts : Options) (fp : String) (acc : Fragment) (n : Node)
    (href : String) (h : (getAttribute n "href").getD "" = href) (hne : href ≠ "")
    (hig : href ∉ opts.ignoreLinks)
    (hpm : ∀ pm ∈ opts.ignoreLinksFromPartialMatches, strContains href pm = false) :
    ProcessHtml.linkStep opts fp acc n =
      { source := acc.source ++ "\nimport '" ++
          (if ∀ e ∈ opts.ignorePathReWrite, strContains href e = false
           then pathJoin (pathDirname fp) href else href) ++ "';\n",
        lineCount := acc.lineCount + 2 } := by
  have hc : opts.ignoreLinks.contains href = false := by
    rw [Bool.eq_false_iff]
    intro hc
    exact hig (List.elem_iff.mp hc)
  have hplen : (opts.ignoreLinksFromPartialMatches.filter (fun x => strContains href x)).length = 0 := by
    rw [List.length_eq_zero, List.filter_eq_nil_iff]
    intro x hx
    simp [hpm x hx]
  by_cases hrw : ∀ e ∈ opts.ignorePathReWrite, strContains href e = false
  · have hrlen : (opts.ignorePathReWrite.filter (fun x => strContains href x)).length = 0 := by
      rw [List.length_eq_zero, List.filter_eq_nil_iff]
      intro x hx
      simp [hrw x hx]
    have hif : (if ∀ e ∈ opts.ignorePathReWrite, strContains href e = false
        then pathJoin (pathDirname fp) href else href) = pathJoin (pathDirname fp) href :=
      if_pos hrw
    simp [ProcessHtml.linkStep, h, hne, hc, hig, hplen, hrlen, hif, str_append_assoc]
  · have hrlen : (opts.ignorePathReWrite.filter (fun x => strContains href x)).length ≠ 0 := by
      push_neg at hrw
      obtain ⟨e, he, hce⟩ := hrw
      have hce' : strContains href e = true := by simpa using hce
      have hx : e ∈ opts.ignorePathReWrite.filter (fun x => strContains href x) :=
        List.mem_filter.mpr ⟨he, hce'⟩
      intro hcon
      rw [List.length_eq_zero] at hcon
      simp [hcon] at hx
    have hif : (if ∀ e ∈ opts.ignorePathReWrite, strContains href e = false
        then pathJoin (pathDirname fp) href else href) = href :=
      if_neg hrw
    simp [ProcessHtml.linkStep, h, hne, hc, hig, hplen, hrlen, hif, str_append_assoc]

/-- Inline script whose text fails to tokenize: the step (and with it the
whole transformation) fails with the tokenizer's error. -/
theorem scriptStep_inline_tokerr (tokenize : String → Except String (List Token))
    (fp : String) (st : ScriptsState) (n : Node) (e : String)
    (hsrc : (getAttribute n "src").getD "" = "")
    (htok : tokenize (serialize n) = .error e) :
    ProcessHtml.scriptStep tokenize fp st n = .error e := by
  simp only [ProcessHtml.scriptStep, hsrc, ne_eq, not_true_eq_false, if_false, ite_false]
  simp only [Bind.bind, Except.bind, htok]

/-- Inline script with no child node: the step fails (the modelled
TypeError of `childNodes[0].__location`). -/
theorem scriptStep_inline_nochild (tokenize : String → Except String (List Token))
    (fp : String) (st : ScriptsState) (n : Node) (tokens : List Token)
    (hsrc : (getAttribute n "src").getD "" = "")
    (htok : tokenize (serialize n) = .ok tokens)
    (hchild : n.childrenOf.head? = none) :
    ProcessHtml.scriptStep tokenize fp st n = .error "TypeError: cannot read __location of undefined" := by
  simp only [ProcessHtml.scriptStep, hsrc, ne_eq, not_true_eq_false, if_false, ite_false]
  simp only [Bind.bind, Except.bind, htok, hchild]

/-- A successful script step yields a source-map generator exactly when one
already existed or the node is an inline script. -/
theorem scriptStep_gen_isSome (tokenize : String → Except String (List Token))
    (fp : String) (st : ScriptsState) (n : Node) (st₁ : ScriptsState)
    (h : ProcessHtml.scriptStep tokenize fp st n = .ok st₁) :
    (st₁.sourceMapGen.isSome = true ↔
      st.sourceMapGen.isSome = true ∨ (getAttribute n "src").getD "" = "") := by
  by_cases hsrc : (getAttribute n "src").getD "" = ""
  · cases htok : tokenize (serialize n) with
    | error e =>
      rw [scriptStep_inline_tokerr tokenize fp st n e hsrc htok] at h
      exact absurd h (by simp)
    | ok tokens =>
      cases hchild : n.childrenOf.head? with
      | none =>
        rw [scriptStep_inline_nochild tokenize fp st n tokens hsrc htok hchild] at h
        exact absurd h (by simp)
      | some child =>
        rw [scriptStep_inline tokenize fp st n tokens child hsrc htok hchild] at h
        rw [Except.ok.injEq] at h
        subst h
        simp [hsrc]
  · by_cases habs : (urlHasProtocol ((getAttribute n "src").getD "")
        && urlHasSlashes ((getAttribute n "src").getD "")) = true
    · rw [scriptStep_external tokenize fp st n _ rfl hsrc
        (by exact (Bool.and_eq_true _ _).mp habs |>.1)
        (by exact (Bool.and_eq_true _ _).mp habs |>.2)] at h
      rw [Except.ok.injEq] at h
      subst h
      simp [hsrc]
    · rw [scriptStep_local tokenize fp st n _ rfl hsrc (by simpa using habs)] at h
      rw [Except.ok.injEq] at h
      subst h
      simp [hsrc]

/-- Folding the script step over a node list: the final state carries a
source-map generator iff the initial one did or some node in the list is an
inline script. -/
theorem foldlM_gen_isSome (tokenize : String → Except String (List Token)) (fp : String) :
    ∀ (l : List Node) (st st' : ScriptsState),
      l.foldlM (ProcessHtml.scriptStep tokenize fp) st = .ok st' →
      (st'.sourceMapGen.isSome = true ↔
        st.sourceMapGen.isSome = true ∨ ∃ n ∈ l, (getAttribute n "src").getD "" = "") := by
  intro l
  induction l with
  | nil =>
    intro st st' h
    simp only [List.foldlM_nil] at h
    cases h
    simp
  | cons n ns ih =>
    intro st st' h
    rw [List.foldlM_cons] at h
    obtain ⟨st₁, hst₁, hrest⟩ := except_bind_ok h
    have hstep := scriptStep_gen_isSome tokenize fp st n st₁ hst₁
    have := ih st₁ st' hrest
    rw [this, hstep]
    constructor
    · rintro (⟨hs | hn⟩ | ⟨m, hm, hsrc⟩)
      · exact Or.inl hs
      · exact Or.inr ⟨n, List.mem_cons_self n ns, hn⟩
      · exact Or.inr ⟨m, List.mem_cons_of_mem n hm, hsrc⟩
    · rintro (hs | ⟨m, hm, hsrc⟩)
      · exact Or.inl (Or.inl hs)
      · rcases List.mem_cons.mp hm with hm | hm
        · subst hm
          exact Or.inl (Or.inr hsrc)
        · exact Or.inr ⟨m, hm, hsrc⟩

/-! ## Removal and serialization lemmas on the tree -/

/-- A node predicate that does not inspect children (true of the tag/attr
predicates used by the passes); removal rebuilds elements with pruned
children, so only such predicates survive removal unchanged. -/
def childrenBlind (p : Node → Bool) : Prop :=
  ∀ t a l c stl etl ch₁ ch₂,
    p (.element t a l c stl etl ch₁) = p (.element t a l c stl etl ch₂)

mutual

/-- If `p m = false` and `p` is children-blind, no node of the `p`-pruned
subtree of `m` satisfies `p`. -/
theorem collect_removeFromNode_self (p : Node → Bool) (hp : childrenBlind p)
    (m : Node) (hm : p m = false) :
    ∀ x ∈ collectNode (removeFromNode p m), p x = false := by
  cases m with
  | text s l c =>
    intro x hx
    simp only [removeFromNode, collectNode, List.mem_singleton] at hx
    subst hx
    exact hm
  | element t a l c stl etl ch =>
    intro x hx
    simp only [removeFromNode, collectNode, List.mem_cons] at hx
    rcases hx with hx | hx
    · subst hx
      rw [hp t a l c stl etl _ ch]
      exact hm
    · exact collect_removeArr_self p hp ch x hx

/-- After removing every `p`-node from a forest (with `p` children-blind),
no remaining node satisfies `p`. -/
theorem collect_removeArr_self (p : Node → Bool) (hp : childrenBlind p)
    (ns : List Node) : ∀ x ∈ collectArr (removeArr p ns), p x = false := by
  cases ns with
  | nil =>
    intro x hx
    simp [removeArr, collectArr] at hx
  | cons n ns' =>
    intro x hx
    by_cases hn : p n = true
    · rw [removeArr, if_pos hn] at hx
      exact collect_removeArr_self p hp ns' x hx
    · rw [removeArr, if_neg hn] at hx
      rw [collectArr, List.mem_append] at hx
      rcases hx with hx | hx
      · exact collect_removeFromNode_self p hp n (by simpa using hn) x hx
      · exact collect_removeArr_self p hp ns' x hx

end

mutual

/-- Removal preserves the absence of a children-blind predicate `q`. -/
theorem collect_removeFromNode_pred (p q : Node → Bool) (hq : childrenBlind q)
    (m : Node) (hm : ∀ x ∈ collectNode m, q x = false) :
    ∀ x ∈ collectNode (removeFromNode p m), q x = false := by
  cases m with
  | text s l c =>
    intro x hx
    exact hm x (by simpa [removeFromNode] using hx)
  | element t a l c stl etl ch =>
    intro x hx
    simp only [removeFromNode, collectNode, List.mem_cons] at hx
    rcases hx with hx | hx
    · subst hx
      rw [hq t a l c stl etl _ ch]
      exact hm _ (by simp [collectNode])
    · exact collect_removeArr_pred p q hq ch
        (fun y hy => hm y (by simp [collectNode, List.mem_cons, hy])) x hx

theorem collect_removeArr_pred (p q : Node → Bool) (hq : childrenBlind q)
    (ns : List Node) (hns : ∀ x ∈ collectArr ns, q x = false) :
    ∀ x ∈ collectArr (removeArr p ns), q x = false := by
  cases ns with
  | nil =>
    intro x hx
    simp [removeArr, collectArr] at hx
  | cons n ns' =>
    intro x hx
    have hhead : ∀ y ∈ collectNode n, q y = false := by
      intro y hy
      exact hns y (by rw [collectArr, List.mem_append]; exact Or.inl hy)
    have htail : ∀ y ∈ collectArr ns', q y = false := by
      intro y hy
      exact hns y (by rw [collectArr, List.mem_append]; exact Or.inr hy)
    by_cases hn : p n = true
    · rw [removeArr, if_pos hn] at hx
      exact collect_removeArr_pred p q hq ns' htail x hx
    · rw [removeArr, if_neg hn] at hx
      rw [collectArr, List.mem_append] at hx
      rcases hx with hx | hx
      · exact collect_removeFromNode_pred p q hq n hhead x hx
      · exact collect_removeArr_pred p q hq ns' htail x hx

end

mutual

/-- Every node of a subtree appears verbatim (as a contiguous substring) in
the subtree's serialization. -/
theorem mem_collectNode_serialized (x m : Node) (h : x ∈ collectNode m) :
    ∃ l r, serializeOuter m = l ++ serializeOuter x ++ r := by
  cases m with
  | text s lc cc =>
    simp only [collectNode, List.mem_singleton] at h
    subst h
    exact ⟨"", "", by rw [str_empty_append, str_append_empty]⟩
  | element t a lc cc stl etl ch =>
    simp only [collectNode, List.mem_cons] at h
    rcases h with h | h
    · subst h
      exact ⟨"", "", by rw [str_empty_append, str_append_empty]⟩
    · obtain ⟨l, r, hlr⟩ := mem_collectArr_serialized x ch h
      refine ⟨"<" ++ t ++ serializeAttrs a ++ ">" ++ l, r ++ ("</" ++ t ++ ">"), ?_⟩
      rw [serializeOuter, hlr]
      simp [str_append_assoc]

theorem mem_collectArr_serialized (x : Node) (ns : List Node) (h : x ∈ collectArr ns) :
    ∃ l r, serializeChildren ns = l ++ serializeOuter x ++ r := by
  cases ns with
  | nil => simp [collectArr] at h
  | cons n ns' =>
    rw [collectArr, List.mem_append] at h
    rcases h with h | h
    · obtain ⟨l, r, hlr⟩ := mem_collectNode_serialized x n h
      refine ⟨l, r ++ serializeChildren ns', ?_⟩
      rw [serializeChildren, hlr]
      simp [str_append_assoc]
    · obtain ⟨l, r, hlr⟩ := mem_collectArr_serialized x ns' h
      refine ⟨serializeOuter n ++ l, r, ?_⟩
      rw [serializeChildren, hlr]
      simp [str_append_assoc]

end

/-! ## Claim theorems -/

/-- **C2**: `process` runs Link Extractor, Body Extractor, Script Emitter in
that order, seeding the Script Emitter with the concatenation of the link and
body fragments' text and the sum of their line counts; the returned value
(code and, when present, source map) is exactly the Script Emitter's result. -/
theorem claim_c2_process_composition (minify : String → String)
    (tokenize : String → Except String (List Token)) (ph : ProcessHtml) :
    ProcessHtml.process minify tokenize ph =
      ProcessHtml.scripts tokenize ph
        ((ProcessHtml.links ph).source ++ (ProcessHtml.domModule minify ph).source)
        ((ProcessHtml.links ph).lineCount + (ProcessHtml.domModule minify ph).lineCount) := rfl

/-- **C6**: for a link with non-empty `href` (shown on a non-suppressed
link, where the path is observable in the output), the import path is the
literal `href` when some `ignorePathReWrite` entry occurs in it as a
substring, and the directory of `currentFilePath` joined with `href`
otherwise. -/
theorem claim_c6_link_path_resolution (opts : Options) (fp : String) (acc : Fragment)
    (n : Node) (href : String)
    (h : (getAttribute n "href").getD "" = href) (hne : href ≠ "")
    (hig : href ∉ opts.ignoreLinks)
    (hpm : ∀ pm ∈ opts.ignoreLinksFromPartialMatches, strContains href pm = false) :
    ((∃ e ∈ opts.ignorePathReWrite, strContains href e = true) →
        ProcessHtml.linkStep opts fp acc n =
          { source := acc.source ++ "\nimport '" ++ href ++ "';\n",
            lineCount := acc.lineCount + 2 })
    ∧ ((∀ e ∈ opts.ignorePathReWrite, strContains href e = false) →
        ProcessHtml.linkStep opts fp acc n =
          { source := acc.source ++ "\nimport '" ++ pathJoin (pathDirname fp) href ++ "';\n",
            lineCount := acc.lineCount + 2 }) := by
  constructor
  · rintro ⟨e, he, hce⟩
    rw [linkStep_emit opts fp acc n href h hne hig hpm]
    rw [if_neg (fun hall => by rw [hall e he] at hce; cases hce)]
  · intro hall
    rw [linkStep_emit opts fp acc n href h hne hig hpm, if_pos hall]

theorem claim_c6_witness :
    ProcessHtml.linkStep ⟨[], [], ["x/"]⟩ "/proj/src/foo.html" ⟨"", 0⟩
        (.element "link" [("href", "x/y.html")] 1 1 1 1 [])
      = { source := "" ++ "\nimport '" ++ "x/y.html" ++ "';\n", lineCount := 0 + 2 }
    ∧ ProcessHtml.linkStep ⟨[], [], []⟩ "/proj/src/foo.html" ⟨"", 0⟩
        (.element "link" [("href", "x/y.html")] 1 1 1 1 [])
      = { source := "" ++ "\nimport '" ++ pathJoin (pathDirname "/proj/src/foo.html") "x/y.html" ++ "';\n",
          lineCount := 0 + 2 } :=
  ⟨(claim_c6_link_path_resolution ⟨[], [], ["x/"]⟩ "/proj/src/foo.html" ⟨"", 0⟩
      (.element "link" [("href", "x/y.html")] 1 1 1 1 []) "x/y.html"
      rfl (by decide) (by simp) (by simp)).1 ⟨"x/", by simp, by decide⟩,
   (claim_c6_link_path_resolution ⟨[], [], []⟩ "/proj/src/foo.html" ⟨"", 0⟩
      (.element "link" [("href", "x/y.html")] 1 1 1 1 []) "x/y.html"
      rfl (by decide) (by simp) (by simp)).2 (by simp)⟩

/-- **C7**: a link contributes nothing when its effective `href` is empty,
exactly matches an `ignoreLinks` entry, or contains an
`ignoreLinksFromPartialMatches` entry as a substring; any other link with
non-empty `href` appends one newline-framed import statement and adds
exactly 2 to the running line count. -/
theorem claim_c7_link_suppression_and_emission (opts : Options) (fp : String)
    (acc : Fragment) (n : Node) :
    ((getAttribute n "href").getD "" = "" → ProcessHtml.linkStep opts fp acc n = acc)
    ∧ (∀ href, (getAttribute n "href").getD "" = href → href ∈ opts.ignoreLinks →
        ProcessHtml.linkStep opts fp acc n = acc)
    ∧ (∀ href pm, (getAttribute n "href").getD "" = href →
        pm ∈ opts.ignoreLinksFromPartialMatches → strContains href pm = true →
        ProcessHtml.linkStep opts fp acc n = acc)
    ∧ (∀ href, (getAttribute n "href").getD "" = href → href ≠ "" →
        href ∉ opts.ignoreLinks →
        (∀ pm ∈ opts.ignoreLinksFromPartialMatches, strContains href pm = false) →
        ∃ path, ProcessHtml.linkStep opts fp acc n =
          { source := acc.source ++ "\nimport '" ++ path ++ "';\n",
            lineCount := acc.lineCount + 2 }) := by
  refine ⟨fun h => linkStep_empty_href opts fp acc n h,
          fun href h hmem => linkStep_ignored_exact opts fp acc n href h hmem,
          fun href pm h hpm hsub => linkStep_partialIgnored opts fp acc n href pm h hpm hsub,
          fun href h hne hig hpm => ⟨_, linkStep_emit opts fp acc n href h hne hig hpm⟩⟩

theorem claim_c7_witness :
    ProcessHtml.linkStep ⟨["ig.html"], ["pp"], []⟩ "/p/f.html" ⟨"x", 1⟩
        (.element "link" [] 1 1 1 1 []) = ⟨"x", 1⟩
    ∧ ProcessHtml.linkStep ⟨["ig.html"], ["pp"], []⟩ "/p/f.html" ⟨"x", 1⟩
        (.element "link" [("href", "ig.html")] 1 1 1 1 []) = ⟨"x", 1⟩
    ∧ ProcessHtml.linkStep ⟨["ig.html"], ["pp"], []⟩ "/p/f.html" ⟨"x", 1⟩
        (.element "link" [("href", "app.html")] 1 1 1 1 []) = ⟨"x", 1⟩
    ∧ ∃ path, ProcessHtml.linkStep ⟨["ig.html"], ["pp"], []⟩ "/p/f.html" ⟨"x", 1⟩
        (.element "link" [("href", "a.html")] 1 1 1 1 [])
        = { source := "x" ++ "\nimport '" ++ path ++ "';\n", lineCount := 1 + 2 } :=
  ⟨(claim_c7_link_suppression_and_emission ⟨["ig.html"], ["pp"], []⟩ "/p/f.html" ⟨"x", 1⟩
      (.element "link" [] 1 1 1 1 [])).1 rfl,
   (claim_c7_link_suppression_and_emission ⟨["ig.html"], ["pp"], []⟩ "/p/f.html" ⟨"x", 1⟩
      (.element "link" [("href", "ig.html")] 1 1 1 1 [])).2.1 "ig.html" rfl (by simp),
   (claim_c7_link_suppression_and_emission ⟨["ig.html"], ["pp"], []⟩ "/p/f.html" ⟨"x", 1⟩
      (.element "link" [("href", "app.html")] 1 1 1 1 [])).2.2.1 "app.html" "pp" rfl (by simp) (by decide),
   (claim_c7_link_suppression_and_emission ⟨["ig.html"], ["pp"], []⟩ "/p/f.html" ⟨"x", 1⟩
      (.element "link" [("href", "a.html")] 1 1 1 1 [])).2.2.2 "a.html" rfl (by decide)
      (by simp) (by decide)⟩

/-- **C9** (failing-input evaluation): an empty inline script
(`<script></script>`, whose parse5 element has no child text node) makes
the `scripts` pass fail even though its text tokenizes fine — the source
reads `scriptNode.childNodes[0].__location` and throws a TypeError — whereas
the claim says a script element without the expected child text node is a
handled state and that only tokenizer syntax errors are fatal. -/
theorem claim_c9_empty_inline_script_crash :
    ProcessHtml.scripts (fun _ => .ok [])
      { content := "<script></script>",
        doc := [.element "script" [] 1 1 1 1 []],
        options := ⟨[], [], []⟩,
        currentFilePath := "/p/f.html" } "" 0
      = .error "TypeError: cannot read __location of undefined" := rfl

/-- **C1**: for an inline script (no effective `src`), the Script Emitter
records one mapping per located token of the tokenized serialized text:
original line = token line + (content start line − 1), original column =
token column + content start column when the token line is 1 (raw column
otherwise), generated line = token line + current running offset, generated
column = token column; identifier tokens carry their text as the mapping's
name.  Afterwards the running offset grows by exactly
`2 + (endTag.line − startTag.line)`.  Here `child` is the script element's
first child (`childNodes[0]`), whose `__location` gives the content start. -/
theorem claim_c1_inline_script_source_map
    (tokenize : String → Except String (List Token)) (fp : String) (st : ScriptsState)
    (n : Node) (tokens : List Token) (child : Node)
    (hsrc : (getAttribute n "src").getD "" = "")
    (htok : tokenize (serialize n) = .ok tokens)
    (hchild : n.childrenOf.head? = some child) :
    ProcessHtml.scriptStep tokenize fp st n = .ok
      { source := st.source ++ "\n" ++ serialize n ++ "\n",
        lineOffset := st.lineOffset + 2 + (n.endTagLineOf - n.startTagLineOf),
        sourceMapGen := some ((st.sourceMapGen.getD []) ++ tokens.filterMap (fun token =>
          match token.loc with
          | none => none
          | some tl => some
              { origLine := tl.line + (child.locLine - 1),
                origCol := tl.col + (if tl.line = 1 then child.locCol else 0),
                genLine := tl.line + st.lineOffset,
                genCol := tl.col,
                source := fp,
                name := if token.type = "Identifier" then some token.value else none })) } := by
  rw [scriptStep_inline tokenize fp st n tokens child hsrc htok hchild]
  have hfun : ∀ token, ProcessHtml.tokenMapping fp (child.locLine - 1) child.locCol st.lineOffset token
      = (match token.loc with
         | none => none
         | some tl => some
             { origLine := tl.line + (child.locLine - 1),
               origCol := tl.col + (if tl.line = 1 then child.locCol else 0),
               genLine := tl.line + st.lineOffset,
               genCol := tl.col,
               source := fp,
               name := if token.type = "Identifier" then some token.value else none }) := by
    intro token
    cases h : token.loc <;> simp [ProcessHtml.tokenMapping, h]
  rw [List.filterMap_congr (fun token _ => hfun token)]

theorem claim_c1_witness :
    ProcessHtml.scriptStep (fun _ => .ok [⟨"Identifier", "a", some ⟨1, 4⟩⟩, ⟨"Punctuator", ";", none⟩])
        "/p/f.html" ⟨"X", 5, none⟩ (.element "script" [] 2 1 2 4 [.text "var a=1;" 2 9])
      = .ok { source := "X" ++ "\n" ++ "var a=1;" ++ "\n",
              lineOffset := 5 + 2 + (4 - 2),
              sourceMapGen := some [{ origLine := 1 + (2 - 1), origCol := 4 + 9,
                                      genLine := 1 + 5, genCol := 4,
                                      source := "/p/f.html", name := some "a" }] } := by
  have h := claim_c1_inline_script_source_map
    (fun _ => .ok [⟨"Identifier", "a", some ⟨1, 4⟩⟩, ⟨"Punctuator", ";", none⟩])
    "/p/f.html" ⟨"X", 5, none⟩ (.element "script" [] 2 1 2 4 [.text "var a=1;" 2 9])
    [⟨"Identifier", "a", some ⟨1, 4⟩⟩, ⟨"Punctuator", ";", none⟩] (.text "var a=1;" 2 9)
    rfl rfl rfl
  rw [h]
  rfl

/-- **C3**: classification of a script node by its effective `src`
(`getAttribute(...) || ''`): external iff the value is non-empty and parses
with both a protocol and the `//` marker (then: no output); local iff the
value is non-empty and does not (then: a framed import of the joined path,
line offset +2); inline iff the effective value is empty — an absent `src`
attribute, or (per the source's `|| ''` defaulting) one equal to the empty
string — and then its serialized text content is emitted and tokenized. -/
theorem claim_c3_script_classification
    (tokenize : String → Except String (List Token)) (fp : String)
    (st : ScriptsState) (n : Node) (src : String)
    (h : (getAttribute n "src").getD "" = src) :
    (src ≠ "" ∧ (urlHasProtocol src && urlHasSlashes src) = true
      ∨ src ≠ "" ∧ (urlHasProtocol src && urlHasSlashes src) = false
      ∨ src = "")
    ∧ (src ≠ "" → (urlHasProtocol src && urlHasSlashes src) = true →
        ProcessHtml.scriptStep tokenize fp st n = .ok st)
    ∧ (src ≠ "" → (urlHasProtocol src && urlHasSlashes src) = false →
        ProcessHtml.scriptStep tokenize fp st n = .ok
          { st with source := st.source ++ "\nimport '" ++ pathJoin (pathDirname fp) src ++ "';\n",
                    lineOffset := st.lineOffset + 2 })
    ∧ (src = "" → ∀ tokens child, tokenize (serialize n) = .ok tokens →
        n.childrenOf.head? = some child →
        ∃ gen, ProcessHtml.scriptStep tokenize fp st n = .ok
          { source := st.source ++ "\n" ++ serialize n ++ "\n",
            lineOffset := st.lineOffset + 2 + (n.endTagLineOf - n.startTagLineOf),
            sourceMapGen := some gen }) := by
  refine ⟨?_, ?_, ?_, ?_⟩
  · rcases eq_or_ne src "" with hz | hz
    · exact Or.inr (Or.inr hz)
    · rcases Bool.eq_false_or_eq_true (urlHasProtocol src && urlHasSlashes src) with hb | hb
      · exact Or.inl ⟨hz, hb⟩
      · exact Or.inr (Or.inl ⟨hz, hb⟩)
  · intro hne habs
    exact scriptStep_external tokenize fp st n src h hne
      ((Bool.and_eq_true _ _).mp habs).1 ((Bool.and_eq_true _ _).mp habs).2
  · intro hne habs
    exact scriptStep_local tokenize fp st n src h hne habs
  · intro hz tokens child htok hchild
    exact ⟨_, scriptStep_inline tokenize fp st n tokens child (h.trans hz) htok hchild⟩

theorem claim_c3_witness :
    ProcessHtml.scriptStep (fun _ => .ok []) "/p/f.html" ⟨"", 0, none⟩
        (.element "script" [("src", "https://cdn.example.com/a.js")] 1 1 1 1 [])
      = .ok ⟨"", 0, none⟩
    ∧ ProcessHtml.scriptStep (fun _ => .ok []) "/p/f.html" ⟨"", 0, none⟩
        (.element "script" [("src", "foo.js")] 1 1 1 1 [])
      = .ok { source := "" ++ "\nimport '" ++ pathJoin (pathDirname "/p/f.html") "foo.js" ++ "';\n",
              lineOffset := 0 + 2, sourceMapGen := none }
    ∧ ∃ gen, ProcessHtml.scriptStep (fun _ => .ok []) "/p/f.html" ⟨"", 0, none⟩
        (.element "script" [] 1 1 1 3 [.text "x" 1 9])
      = .ok { source := "" ++ "\n" ++ serialize (Node.element "script" [] 1 1 1 3 [.text "x" 1 9]) ++ "\n",
              lineOffset := 0 + 2 + (3 - 1), sourceMapGen := some gen } :=
  ⟨(claim_c3_script_classification (fun _ => .ok []) "/p/f.html" ⟨"", 0, none⟩
      (.element "script" [("src", "https://cdn.example.com/a.js")] 1 1 1 1 [])
      "https://cdn.example.com/a.js" rfl).2.1 (by decide) (by decide),
   (claim_c3_script_classification (fun _ => .ok []) "/p/f.html" ⟨"", 0, none⟩
      (.element "script" [("src", "foo.js")] 1 1 1 1 []) "foo.js" rfl).2.2.1
      (by decide) (by decide),
   (claim_c3_script_classification (fun _ => .ok []) "/p/f.html" ⟨"", 0, none⟩
      (.element "script" [] 1 1 1 3 [.text "x" 1 9]) "" rfl).2.2.2 rfl
      [] (.text "x" 1 9) rfl rfl⟩

/-- **C10**: a script node whose `src` attribute is present but equal to the
empty string is handled exactly as if the attribute were absent: the Script
Emitter's step coincides with the step on the same node without the
attribute (its serialized text content is emitted, no import is produced),
and the Body Extractor's removal condition holds for both. -/
theorem claim_c10_empty_src_is_inline
    (tokenize : String → Except String (List Token)) (fp : String) (st : ScriptsState)
    (a₁ a₂ : List (String × String)) (l c stl etl : Int) (ch : List Node)
    (h₁ : getAttribute (.element "script" a₁ l c stl etl ch) "src" = some "")
    (h₂ : getAttribute (.element "script" a₂ l c stl etl ch) "src" = none) :
    ProcessHtml.scriptStep tokenize fp st (.element "script" a₁ l c stl etl ch)
      = ProcessHtml.scriptStep tokenize fp st (.element "script" a₂ l c stl etl ch)
    ∧ ProcessHtml.shouldRemoveScript (.element "script" a₁ l c stl etl ch) = true
    ∧ ProcessHtml.shouldRemoveScript (.element "script" a₂ l c stl etl ch) = true := by
  refine ⟨?_, ?_, ?_⟩
  · simp only [ProcessHtml.scriptStep, h₁, h₂, Option.getD_some, Option.getD_none]
    rfl
  · simp [ProcessHtml.shouldRemoveScript, h₁]
  · simp [ProcessHtml.shouldRemoveScript, h₂]

theorem claim_c10_witness :
    ProcessHtml.scriptStep (fun _ => .ok []) "/p/f.html" ⟨"", 0, none⟩
        (.element "script" [("src", "")] 1 1 1 1 [.text "x" 1 9])
      = ProcessHtml.scriptStep (fun _ => .ok []) "/p/f.html" ⟨"", 0, none⟩
        (.element "script" [] 1 1 1 1 [.text "x" 1 9])
    ∧ ProcessHtml.shouldRemoveScript (.element "script" [("src", "")] 1 1 1 1 [.text "x" 1 9]) = true
    ∧ ProcessHtml.shouldRemoveScript (.element "script" [] 1 1 1 1 [.text "x" 1 9]) = true :=
  claim_c10_empty_src_is_inline (fun _ => .ok []) "/p/f.html" ⟨"", 0, none⟩
    [("src", "")] [] 1 1 1 1 [.text "x" 1 9] rfl rfl

/-- **C8**: a successful `scripts` pass carries a source map iff the
document has at least one inline script (effective `src` empty); when
present, the map embeds the full original file text keyed to
`currentFilePath`; otherwise the field is `none`. -/
theorem claim_c8_source_map_presence
    (tokenize : String → Except String (List Token)) (ph : ProcessHtml)
    (initialSource : String) (initialLineOffset : Int) (r : ScriptsResult)
    (h : ProcessHtml.scripts tokenize ph initialSource initialLineOffset = .ok r) :
    (r.sourceMap.isSome = true ↔
      ∃ n ∈ queryAll scriptsPred ph.doc, (getAttribute n "src").getD "" = "")
    ∧ (∀ sm, r.sourceMap = some sm →
        sm.sourcesContent = [(ph.currentFilePath, ph.content)]) := by
  simp only [ProcessHtml.scripts] at h
  obtain ⟨st, hfold, hret⟩ := except_bind_ok h
  have hr : r = { source := st.source,
                  sourceMap := st.sourceMapGen.map (fun ms =>
                    { mappings := ms,
                      sourcesContent := [(ph.currentFilePath, ph.content)] }) } := by
    simpa [pure, Except.pure, eq_comm] using hret
  subst hr
  constructor
  · have hiff := foldlM_gen_isSome tokenize ph.currentFilePath
      (queryAll scriptsPred ph.doc) _ st hfold
    simpa using hiff
  · intro sm hsm
    rcases hgen : st.sourceMapGen with _ | ms
    · rw [hgen] at hsm
      simp at hsm
    · rw [hgen] at hsm
      have heq : SourceMapJSON.mk ms [(ph.currentFilePath, ph.content)] = sm := by
        simpa using hsm
      rw [← heq]

theorem claim_c8_witness :
    (ProcessHtml.scripts (fun _ => .ok [])
        { content := "C",
          doc := [.element "script" [] 1 1 1 1 [.text "x" 1 9]],
          options := ⟨[], [], []⟩, currentFilePath := "/p/f.html" } "" 0
      = .ok { source := "\nx\n", sourceMap := some ⟨[], [("/p/f.html", "C")]⟩ })
    ∧ (((ScriptsResult.mk "\nx\n" (some ⟨[], [("/p/f.html", "C")]⟩)).sourceMap.isSome = true ↔
        ∃ n ∈ queryAll scriptsPred [Node.element "script" [] 1 1 1 1 [.text "x" 1 9]],
          (getAttribute n "src").getD "" = "")
      ∧ (∀ sm, (ScriptsResult.mk "\nx\n" (some ⟨[], [("/p/f.html", "C")]⟩)).sourceMap = some sm →
          sm.sourcesContent = [("/p/f.html", "C")])) :=
  ⟨rfl,
   claim_c8_source_map_presence (fun _ => .ok [])
     { content := "C",
       doc := [.element "script" [] 1 1 1 1 [.text "x" 1 9]],
       options := ⟨[], [], []⟩, currentFilePath := "/p/f.html" } "" 0
     ⟨"\nx\n", some ⟨[], [("/p/f.html", "C")]⟩⟩ rfl⟩

/-- **C4**: after the Body Extractor's removals, no node of its working tree
is a link or a non-external script; when the minified serialization is
non-empty it emits exactly one statement (register when a `dom-module` was
found, toBody otherwise) with single quotes escaped, at 3 generated lines;
when empty it emits nothing (0 lines). -/
theorem claim_c4_dom_module_emission (minify : String → String) (ph : ProcessHtml) :
    (∀ x ∈ collectArr (ProcessHtml.domModuleDoc ph),
        linkPred x = false ∧ (scriptsPred x && ProcessHtml.shouldRemoveScript x) = false)
    ∧ (minify (serializeChildren (ProcessHtml.domModuleHtmlChildren ph)) ≠ "" →
        ProcessHtml.domModule minify ph =
          { source := (if ProcessHtml.domModuleFound ph
              then "\nconst RegisterHtmlTemplate = require('polymer-webpack-loader/register-html-template');\nRegisterHtmlTemplate.register('"
                ++ escapeSingleQuotes (minify (serializeChildren (ProcessHtml.domModuleHtmlChildren ph))) ++ "');\n"
              else "\nconst RegisterHtmlTemplate = require('polymer-webpack-loader/register-html-template');\nRegisterHtmlTemplate.toBody('"
                ++ escapeSingleQuotes (minify (serializeChildren (ProcessHtml.domModuleHtmlChildren ph))) ++ "');\n"),
            lineCount := 3 })
    ∧ (minify (serializeChildren (ProcessHtml.domModuleHtmlChildren ph)) = "" →
        ProcessHtml.domModule minify ph = { source := "", lineCount := 0 }) := by
  have hl : childrenBlind linkPred := by
    intro t a l c stl etl ch₁ ch₂
    rfl
  have hq : childrenBlind (fun x => scriptsPred x && ProcessHtml.shouldRemoveScript x) := by
    intro t a l c stl etl ch₁ ch₂
    rfl
  refine ⟨?_, ?_, ?_⟩
  · intro x hx
    refine ⟨collect_removeArr_self linkPred hl _ x hx, ?_⟩
    refine collect_removeArr_pred linkPred _ hq _ ?_ x hx
    intro y hy
    exact collect_removeArr_self _ hq ph.doc y hy
  · intro hmin
    simp only [ProcessHtml.domModule]
    rw [if_pos hmin]
    cases hf : ProcessHtml.domModuleFound ph <;> simp [hf]
  · intro hmin
    simp only [ProcessHtml.domModule]
    rw [if_neg (by simp [hmin])]

theorem str_append_left_ne_empty (a b : String) (ha : a ≠ "") : a ++ b ≠ "" := by
  intro hc
  have hd : (a ++ b).data = ("" : String).data := congrArg String.data hc
  rw [str_data_append] at hd
  rcases List.append_eq_nil.mp hd with ⟨h1, _⟩
  exact ha (String.ext (by rw [h1]))

theorem str_append_right_ne_empty (a b : String) (hb : b ≠ "") : a ++ b ≠ "" := by
  intro hc
  have hd : (a ++ b).data = ("" : String).data := congrArg String.data hc
  rw [str_data_append] at hd
  rcases List.append_eq_nil.mp hd with ⟨_, h2⟩
  exact hb (String.ext (by rw [h2]))

theorem claim_c4_witness :
    (linkPred (.element "script" [("src", "https://cdn.example.com/a.js")] 2 1 2 2 []) = false
      ∧ (scriptsPred (.element "script" [("src", "https://cdn.example.com/a.js")] 2 1 2 2 [])
          && ProcessHtml.shouldRemoveScript
              (.element "script" [("src", "https://cdn.example.com/a.js")] 2 1 2 2 [])) = false)
    ∧ ProcessHtml.domModule (fun s => s)
        { content := "C",
          doc := [.element "dom-module" [("id", "x")] 1 1 1 5
                   [.element "script" [("src", "https://cdn.example.com/a.js")] 2 1 2 2 []]],
          options := ⟨[], [], []⟩, currentFilePath := "/p/f.html" }
      = { source := "\nconst RegisterHtmlTemplate = require('polymer-webpack-loader/register-html-template');\nRegisterHtmlTemplate.register('<dom-module id=\"x\"><script src=\"https://cdn.example.com/a.js\"></script></dom-module>');\n",
          lineCount := 3 } :=
  ⟨(claim_c4_dom_module_emission (fun s => s)
      { content := "C",
        doc := [.element "dom-module" [("id", "x")] 1 1 1 5
                 [.element "script" [("src", "https://cdn.example.com/a.js")] 2 1 2 2 []]],
        options := ⟨[], [], []⟩, currentFilePath := "/p/f.html" }).1
      (.element "script" [("src", "https://cdn.example.com/a.js")] 2 1 2 2 [])
      (by
        show Node.element "script" [("src", "https://cdn.example.com/a.js")] 2 1 2 2 []
          ∈ [Node.element "dom-module" [("id", "x")] 1 1 1 5
               [.element "script" [("src", "https://cdn.example.com/a.js")] 2 1 2 2 []],
             Node.element "script" [("src", "https://cdn.example.com/a.js")] 2 1 2 2 []]
        simp),
   (claim_c4_dom_module_emission (fun s => s)
      { content := "C",
        doc := [.element "dom-module" [("id", "x")] 1 1 1 5
                 [.element "script" [("src", "https://cdn.example.com/a.js")] 2 1 2 2 []]],
        options := ⟨[], [], []⟩, currentFilePath := "/p/f.html" }).2.1 (by decide)⟩

/-- **C5**: a script node with a non-empty absolute-URL `src` is kept by the
Body Extractor's removal condition, produces no output (in particular no
import) in the Script Emitter's step, is not a link (so the link pass never
touches it), and — being kept — appears verbatim in the markup handed to
`minify`; if the opaque `minify` preserves that occurrence (and the markup
contains no single quote to escape), it appears verbatim inside the emitted
registration statement. -/
theorem claim_c5_external_script_preserved
    (tokenize : String → Except String (List Token)) (minify : String → String)
    (fp : String) (st : ScriptsState) (ph : ProcessHtml) (n : Node) (src : String)
    (hscript : scriptsPred n = true)
    (h : (getAttribute n "src").getD "" = src) (hne : src ≠ "")
    (hp : urlHasProtocol src = true) (hs : urlHasSlashes src = true) :
    ProcessHtml.shouldRemoveScript n = false
    ∧ ProcessHtml.scriptStep tokenize fp st n = .ok st
    ∧ linkPred n = false
    ∧ (n ∈ collectArr (ProcessHtml.domModuleHtmlChildren ph) →
        ∃ l r, serializeChildren (ProcessHtml.domModuleHtmlChildren ph)
          = l ++ serializeOuter n ++ r)
    ∧ (∀ l r, minify (serializeChildren (ProcessHtml.domModuleHtmlChildren ph))
          = l ++ serializeOuter n ++ r →
        escapeSingleQuotes (serializeOuter n) = serializeOuter n →
        ∃ ll rr, (ProcessHtml.domModule minify ph).source = ll ++ serializeOuter n ++ rr) := by
  refine ⟨?_, scriptStep_external tokenize fp st n src h hne hp hs, ?_, ?_, ?_⟩
  · simp [ProcessHtml.shouldRemoveScript, h, hne, hp, hs]
  · cases n with
    | text s l c => simp [scriptsPred, hasTagName] at hscript
    | element t a l c stl etl ch =>
      simp only [scriptsPred, hasTagName, decide_eq_true_eq] at hscript
      subst hscript
      simp [linkPred, hasTagName]
  · intro hmem
    exact mem_collectArr_serialized n _ hmem
  · intro l r hmin hqesc
    have hXne : serializeOuter n ≠ "" := by
      cases n with
      | text s lx cx => simp [scriptsPred, hasTagName] at hscript
      | element t a lx cx stl etl ch =>
        rw [serializeOuter]
        apply str_append_left_ne_empty
        apply str_append_left_ne_empty
        apply str_append_left_ne_empty
        apply str_append_left_ne_empty
        apply str_append_left_ne_empty
        apply str_append_left_ne_empty
        apply str_append_left_ne_empty
        decide
    have hminne : minify (serializeChildren (ProcessHtml.domModuleHtmlChildren ph)) ≠ "" := by
      rw [hmin]
      exact str_append_left_ne_empty _ _ (str_append_right_ne_empty _ _ hXne)
    have hesc : escapeSingleQuotes (l ++ serializeOuter n ++ r)
        = escapeSingleQuotes l ++ serializeOuter n ++ escapeSingleQuotes r := by
      rw [escapeSingleQuotes_append, escapeSingleQuotes_append, hqesc]
    simp only [ProcessHtml.domModule]
    rw [if_pos hminne, hmin, hesc]
    cases hf : ProcessHtml.domModuleFound ph
    · refine ⟨"\nconst RegisterHtmlTemplate = require('polymer-webpack-loader/register-html-template');\nRegisterHtmlTemplate.toBody('"
          ++ escapeSingleQuotes l, escapeSingleQuotes r ++ "');\n", ?_⟩
      simp [hf, str_append_assoc]
    · refine ⟨"\nconst RegisterHtmlTemplate = require('polymer-webpack-loader/register-html-template');\nRegisterHtmlTemplate.register('"
          ++ escapeSingleQuotes l, escapeSingleQuotes r ++ "');\n", ?_⟩
      simp [hf, str_append_assoc]

theorem claim_c5_witness :
    ProcessHtml.shouldRemoveScript
        (.element "script" [("src", "https://cdn.example.com/a.js")] 2 1 2 2 []) = false
    ∧ ProcessHtml.scriptStep (fun _ => .ok []) "/p/f.html" ⟨"", 0, none⟩
        (.element "script" [("src", "https://cdn.example.com/a.js")] 2 1 2 2 []) = .ok ⟨"", 0, none⟩
    ∧ ∃ ll rr, (ProcessHtml.domModule (fun s => s)
        { content := "C",
          doc := [.element "dom-module" [("id", "x")] 1 1 1 5
                   [.element "script" [("src", "https://cdn.example.com/a.js")] 2 1 2 2 []]],
          options := ⟨[], [], []⟩, currentFilePath := "/p/f.html" }).source
      = ll ++ serializeOuter (.element "script" [("src", "https://cdn.example.com/a.js")] 2 1 2 2 []) ++ rr := by
  have H := claim_c5_external_script_preserved (fun _ => .ok []) (fun s => s) "/p/f.html"
    ⟨"", 0, none⟩
    { content := "C",
      doc := [.element "dom-module" [("id", "x")] 1 1 1 5
               [.element "script" [("src", "https://cdn.example.com/a.js")] 2 1 2 2 []]],
      options := ⟨[], [], []⟩, currentFilePath := "/p/f.html" }
    (.element "script" [("src", "https://cdn.example.com/a.js")] 2 1 2 2 [])
    "https://cdn.example.com/a.js" (by decide) rfl (by decide) (by decide) (by decide)
  exact ⟨H.1, H.2.1,
    H.2.2.2.2 "<dom-module id=\"x\">" "</dom-module>" (by rfl) (by rfl)⟩
